import Mathlib

/-
Verification of the playback/queue engine of the `leek` terminal audio
player (src/app.rs) against its specification.

Shallow embedding conventions:
- Strings (`String`, `PathBuf`) are modelled as `List Char` (`Str`); Rust's
  byte-lexicographic `Ord` on `String`/`PathBuf` becomes character-code
  lexicographic comparison (`strCmp`), and `str::to_lowercase` becomes the
  ASCII lowering `lower` (multi-byte Unicode case mappings are not modelled).
- The filesystem is an explicit parameter `Fs`: `isDirPath p` models
  `p.exists() && p.is_dir()`, `readDir` models `fs::read_dir` (returning the
  successfully read entries, `flatten`ed), `parent` models `Path::parent`.
  A directory entry (`RawEntry`) carries the metadata the code inspects:
  its path, its file name, whether it is a directory, and its extension.
- The rodio backend is modelled by `Sink` (the observable bits the code
  uses: `empty`, `paused`, plus the volume last applied via `set_volume`)
  and by a decode oracle `dec : Str → Option (Option Nat)`:
  `dec p = none` models failure of `File::open`/`Decoder::new` for `p`, and
  `dec p = some d` models a successful decode whose `total_duration()` is
  `d` (in milliseconds; `d = none` when the source reports no duration).
  `Sink::try_new` is modelled as always succeeding.
- Durations are in milliseconds (`Nat`); one tick adds 250 ms, as in
  `on_tick` / events.rs.
- `self.browser_items[self.browser_index]` (a panicking index in Rust) is
  modelled by `List.getD` with an inert default item; all theorems about it
  assume the index invariant, under which the default is never used.
-/

namespace Leek

/-- Characters of a Rust string / path, in order. -/
abbrev Str := List Char

/-- `FileType` from app.rs. -/
inductive FileType where
  | Directory : FileType
  | AudioFile : FileType
  | Other : FileType
deriving DecidableEq, Repr

/-- `BrowserItem` from app.rs. -/
structure BrowserItem where
  path : Str
  name : Str
  file_type : FileType
deriving DecidableEq, Repr

/-- The observable state of the rodio `Sink` the code interacts with. -/
structure Sink where
  empty : Bool
  paused : Bool
  volume : Nat
deriving DecidableEq, Repr

/-- One entry produced by `fs::read_dir`, carrying exactly the metadata
`load_directory` / `play_folder` inspect. -/
structure RawEntry where
  path : Str
  name : Str
  isDir : Bool
  ext : Option Str
deriving DecidableEq, Repr

/-- The filesystem, as the observations the code makes of it. -/
structure Fs where
  isDirPath : Str → Bool
  readDir : Str → Option (List RawEntry)
  parent : Str → Option Str

/-- ASCII lowering of one character (models `char::to_lowercase` on the
ASCII range, the only part exercised by extension matching). -/
def lowerChar (c : Char) : Char :=
  if 'A' ≤ c ∧ c ≤ 'Z' then Char.ofNat (c.toNat + 32) else c

/-- Models `str::to_lowercase`. -/
def lower (s : Str) : Str := s.map lowerChar

/-- Lexicographic comparison of two character lists; models `Ord` on Rust
`String` (byte order and code-point order agree under UTF-8). -/
def strCmp : Str → Str → Ordering
  | [], [] => Ordering.eq
  | [], _ :: _ => Ordering.lt
  | _ :: _, [] => Ordering.gt
  | a :: as, b :: bs =>
    if a < b then Ordering.lt else if b < a then Ordering.gt else strCmp as bs

/-- The non-strict order induced by `strCmp` (what a stable sort by `strCmp`
sorts by). -/
def strLe (s t : Str) : Prop := strCmp s t ≠ Ordering.gt

instance : DecidableRel strLe :=
  fun s t => inferInstanceAs (Decidable (strCmp s t ≠ Ordering.gt))

/-- `["mp3", "wav", "flac", "ogg"]` from app.rs. -/
def audioExts : List Str := ["mp3".data, "wav".data, "flac".data, "ogg".data]

/-- The extension test used by `play_folder`'s filter closure:
`path.extension()` exists and its lowercase form is a recognized audio
extension. Note it does not ask whether the entry is a regular file. -/
def hasAudioExt (e : RawEntry) : Bool :=
  match e.ext with
  | some ext => audioExts.contains (lower ext)
  | none => false

/-- Classification of one directory entry, from `load_directory`:
directories first, then recognized audio extensions, everything else
`Other`. -/
def classify (e : RawEntry) : FileType :=
  if e.isDir then FileType.Directory
  else
    match e.ext with
    | some ext =>
        if audioExts.contains (lower ext) then FileType.AudioFile
        else FileType.Other
    | none => FileType.Other

/-- The comparator passed to `sort_by` in `load_directory`: directories
before non-directories, ties broken by case-insensitive name. -/
def itemCmp (a b : BrowserItem) : Ordering :=
  match a.file_type == FileType.Directory, b.file_type == FileType.Directory with
  | true, false => Ordering.lt
  | false, true => Ordering.gt
  | _, _ => strCmp (lower a.name) (lower b.name)

/-- The non-strict order induced by `itemCmp`. -/
def itemLe (a b : BrowserItem) : Prop := itemCmp a b ≠ Ordering.gt

instance : DecidableRel itemLe :=
  fun a b => inferInstanceAs (Decidable (itemCmp a b ≠ Ordering.gt))

/-- The `App` struct from app.rs (its `_stream`/`stream_handle` carry no
observable state; the `sink` is modelled by `Sink` above). -/
structure App where
  current_directory : Str
  browser_items : List BrowserItem
  browser_index : Nat
  queue : List Str
  queue_index : Nat
  volume : Nat
  is_playing : Bool
  elapsed : Nat
  duration : Option Nat
  tick_counter : Nat
  sink : Sink
deriving DecidableEq, Repr

/-- Inert stand-in for the panicking out-of-range index (never hit under
the index invariant). -/
def defaultItem : BrowserItem := { path := [], name := [], file_type := FileType.Other }

/-- `App::load_directory`. -/
def load_directory (fs : Fs) (path : Str) (a : App) : App :=
  if !fs.isDirPath path then a
  else
    let a1 := { a with browser_items := [], browser_index := 0, current_directory := path }
    match fs.readDir path with
    | none => a1
    | some entries =>
      let items :=
        (entries.map (fun e =>
            { path := e.path, name := e.name, file_type := classify e : BrowserItem })
          ).filter (fun item => !(item.file_type == FileType.Other))
      { a1 with browser_items := List.insertionSort itemLe items }

/-- `App::play_queue_item`: stop and recreate the sink at the current
volume, then attempt to open and decode `queue[queue_index]`. -/
def play_queue_item (dec : Str → Option (Option Nat)) (a : App) : App :=
  match a.queue[a.queue_index]? with
  | none => a
  | some p =>
    let a1 := { a with sink := { empty := true, paused := false, volume := a.volume } }
    match dec p with
    | none => a1
    | some dur =>
      { a1 with
        duration := dur
        elapsed := 0
        sink := { empty := false, paused := false, volume := a.volume }
        is_playing := true }

/-- `App::toggle_play`. -/
def toggle_play (dec : Str → Option (Option Nat)) (a : App) : App :=
  if a.sink.empty && !a.queue.isEmpty then play_queue_item dec a
  else if a.sink.paused then
    { a with sink := { a.sink with paused := false }, is_playing := true }
  else
    { a with sink := { a.sink with paused := true }, is_playing := false }

/-- `App::next_track`. -/
def next_track (dec : Str → Option (Option Nat)) (a : App) : App :=
  if a.queue.isEmpty then a
  else
    let a1 :=
      if a.queue_index + 1 < a.queue.length then { a with queue_index := a.queue_index + 1 }
      else { a with queue_index := 0 }
    play_queue_item dec a1

/-- `App::prev_track`. -/
def prev_track (dec : Str → Option (Option Nat)) (a : App) : App :=
  if a.queue.isEmpty then a
  else
    let a1 :=
      if a.queue_index > 0 then { a with queue_index := a.queue_index - 1 }
      else { a with queue_index := a.queue.length - 1 }
    play_queue_item dec a1

/-- The two increments `on_tick` performs while playing (tick is 250 ms). -/
def tickProgress (a : App) : App :=
  { a with tick_counter := a.tick_counter + 1, elapsed := a.elapsed + 250 }

/-- `App::on_tick`. -/
def on_tick (dec : Str → Option (Option Nat)) (a : App) : App :=
  if a.is_playing then
    let b := tickProgress a
    if b.sink.empty && !b.queue.isEmpty then
      if b.duration.isSome then next_track dec b else b
    else b
  else a

/-- The queue `enter_selected` commits on an audio selection: every
AudioFile currently listed in the browser, in display order. -/
def audioQueue (a : App) : List Str :=
  (a.browser_items.filter (fun item => item.file_type == FileType.AudioFile)).map
    (fun item => item.path)

/-- `App::enter_selected`. -/
def enter_selected (fs : Fs) (dec : Str → Option (Option Nat)) (a : App) : App :=
  if a.browser_items.isEmpty then a
  else
    let selected := a.browser_items.getD a.browser_index defaultItem
    match selected.file_type with
    | FileType.Directory => load_directory fs selected.path a
    | FileType.AudioFile =>
      let a1 := { a with queue := audioQueue a }
      match a1.queue.findIdx? (fun p => p == selected.path) with
      | some idx => play_queue_item dec { a1 with queue_index := idx }
      | none => a1
    | FileType.Other => a

/-- The `folder_files` list built inside `play_folder`: the paths of the
entries whose extension is a recognized audio extension, sorted by path
order. -/
def folderFiles (entries : List RawEntry) : List Str :=
  List.insertionSort strLe ((entries.filter hasAudioExt).map (fun e => e.path))

/-- `App::play_folder`. -/
def play_folder (fs : Fs) (dec : Str → Option (Option Nat)) (a : App) : App :=
  if a.browser_items.isEmpty then a
  else
    let selected := a.browser_items.getD a.browser_index defaultItem
    if selected.file_type == FileType.Directory then
      match fs.readDir selected.path with
      | none => a
      | some entries =>
        let folder_files := folderFiles entries
        if !folder_files.isEmpty then
          play_queue_item dec { a with queue := folder_files, queue_index := 0 }
        else a
    else a

/-- `App::go_up`. -/
def go_up (fs : Fs) (a : App) : App :=
  match fs.parent a.current_directory with
  | some parent_path => load_directory fs parent_path a
  | none => a

/-- `App::next_item`. -/
def next_item (a : App) : App :=
  if !a.browser_items.isEmpty then
    if a.browser_index + 1 < a.browser_items.length then
      { a with browser_index := a.browser_index + 1 }
    else { a with browser_index := 0 }
  else a

/-- `App::prev_item`. -/
def prev_item (a : App) : App :=
  if !a.browser_items.isEmpty then
    if a.browser_index > 0 then { a with browser_index := a.browser_index - 1 }
    else { a with browser_index := a.browser_items.length - 1 }
  else a

/-- `App::volume_up`. -/
def volume_up (a : App) : App :=
  let v := min (a.volume + 5) 100
  { a with volume := v, sink := { a.sink with volume := v } }

/-- `App::volume_down`. -/
def volume_down (a : App) : App :=
  let v := a.volume - 5
  { a with volume := v, sink := { a.sink with volume := v } }

/-- The index invariants of §3 of the spec: the browser selection index is
in range whenever the listing is non-empty (and held at 0 when empty), and
the queue index is in range whenever the queue is non-empty. -/
def Inv (a : App) : Prop :=
  (a.browser_items = [] → a.browser_index = 0)
  ∧ (a.browser_items ≠ [] → a.browser_index < a.browser_items.length)
  ∧ (a.queue ≠ [] → a.queue_index < a.queue.length)

/-- A volume command, for stating facts about arbitrary sequences of
volume key presses. -/
inductive VolOp where
  | up : VolOp
  | down : VolOp
deriving DecidableEq, Repr

/-- Dispatch of one volume command. -/
def applyVolOp : VolOp → App → App
  | VolOp.up, a => volume_up a
  | VolOp.down, a => volume_down a

/-- Decode oracle under which every open/decode fails. -/
def dec0 : Str → Option (Option Nat) := fun _ => none

/-- Decode oracle under which every decode succeeds with a 180 s duration. -/
def decOk : Str → Option (Option Nat) := fun _ => some (some 180000)

/-- The state of a freshly constructed `App` whose start directory listing
is empty (the post-`App::new` field values from app.rs). -/
def app0 : App :=
  { current_directory := ".".data
    browser_items := []
    browser_index := 0
    queue := []
    queue_index := 0
    volume := 50
    is_playing := false
    elapsed := 0
    duration := none
    tick_counter := 0
    sink := { empty := true, paused := false, volume := 50 } }

/-- Directory entry `b.mp3` of the §8 scan scenario. -/
def entryB : RawEntry :=
  { path := "d/b.mp3".data, name := "b.mp3".data, isDir := false, ext := some "mp3".data }

/-- Directory entry `A.mp3` of the §8 scan scenario. -/
def entryA : RawEntry :=
  { path := "d/A.mp3".data, name := "A.mp3".data, isDir := false, ext := some "mp3".data }

/-- Directory entry `sub/` of the §8 scan scenario. -/
def entrySub : RawEntry :=
  { path := "d/sub".data, name := "sub".data, isDir := true, ext := none }

/-- Filesystem holding one directory `d` containing `b.mp3`, `A.mp3`, `sub/`
(in that raw read order). -/
def fs6 : Fs :=
  { isDirPath := fun p => p == "d".data
    readDir := fun p => if p == "d".data then some [entryB, entryA, entrySub] else none
    parent := fun _ => none }

/-- A directory entry that is itself a subdirectory but carries an audio
extension in its name. -/
def entryOdd : RawEntry :=
  { path := "d/x.mp3".data, name := "x.mp3".data, isDir := true, ext := some "mp3".data }

/-- Filesystem holding one directory `d` whose only child is the
subdirectory `x.mp3`. -/
def fs7 : Fs :=
  { isDirPath := fun p => p == "d".data
    readDir := fun p => if p == "d".data then some [entryOdd] else none
    parent := fun _ => none }

/-- Browser item for the directory `d`. -/
def dirItemD : BrowserItem := { path := "d".data, name := "d".data, file_type := FileType.Directory }

/-- App whose browser lists the directory `d`, selected. -/
def app7 : App := { app0 with browser_items := [dirItemD] }

/-- Browser item for the audio file `A.mp3`. -/
def itemA : BrowserItem :=
  { path := "d/A.mp3".data, name := "A.mp3".data, file_type := FileType.AudioFile }

/-- Browser item for the audio file `b.mp3`. -/
def itemB : BrowserItem :=
  { path := "d/b.mp3".data, name := "b.mp3".data, file_type := FileType.AudioFile }

/-- App browsing a listing of two audio files with the second one selected. -/
def app2 : App := { app0 with browser_items := [itemA, itemB], browser_index := 1 }

/-- App with a committed two-item queue, currently at index 1. -/
def app3 : App := { app0 with queue := ["d/x.mp3".data, "d/y.mp3".data], queue_index := 1 }

/-- App that is playing the single queued item `x.mp3`. -/
def app4 : App :=
  { app0 with
    queue := ["x.mp3".data]
    queue_index := 0
    is_playing := true
    duration := some 180000
    sink := { empty := false, paused := false, volume := 50 } }

/-! Order-theoretic facts about the comparators used by the two sorts. -/

theorem strCmp_eq_iff : ∀ s t : Str, strCmp s t = Ordering.eq ↔ s = t := by
  intro s
  induction s with
  | nil => intro t; cases t <;> simp [strCmp]
  | cons a as ih =>
    intro t
    cases t with
    | nil => simp [strCmp]
    | cons b bs =>
      simp only [strCmp]
      rcases lt_trichotomy a b with h | h | h
      · simp [h, ne_of_lt h]
      · subst h
        simp [lt_irrefl, ih bs]
      · rw [if_neg (lt_asymm h), if_pos h]
        simp [ne_of_gt h]

theorem strCmp_swap : ∀ s t : Str, strCmp t s = (strCmp s t).swap := by
  intro s
  induction s with
  | nil => intro t; cases t <;> simp [strCmp, Ordering.swap]
  | cons a as ih =>
    intro t
    cases t with
    | nil => simp [strCmp, Ordering.swap]
    | cons b bs =>
      simp only [strCmp]
      rcases lt_trichotomy a b with h | h | h
      · simp [h, lt_asymm h, Ordering.swap]
      · subst h
        simp [lt_irrefl, ih bs]
      · simp [h, lt_asymm h, Ordering.swap]

theorem strCmp_lt_trans :
    ∀ s t u : Str, strCmp s t = Ordering.lt → strCmp t u = Ordering.lt →
      strCmp s u = Ordering.lt := by
  intro s
  induction s with
  | nil =>
    intro t u h1 h2
    cases u with
    | nil =>
      exfalso
      cases t with
      | nil => simp [strCmp] at h2
      | cons b bs => simp [strCmp] at h2
    | cons c cs => simp [strCmp]
  | cons a as ih =>
    intro t u h1 h2
    cases t with
    | nil => simp [strCmp] at h1
    | cons b bs =>
      cases u with
      | nil => simp [strCmp] at h2
      | cons c cs =>
        simp only [strCmp] at h1 h2 ⊢
        rcases lt_trichotomy a b with hab | hab | hab
        · rcases lt_trichotomy b c with hbc | hbc | hbc
          · simp [lt_trans hab hbc]
          · subst hbc; simp [hab]
          · rw [if_neg (lt_asymm hbc), if_pos hbc] at h2
            exact absurd h2 (by simp)
        · subst hab
          rw [if_neg (lt_irrefl a), if_neg (lt_irrefl a)] at h1
          rcases lt_trichotomy a c with hac | hac | hac
          · simp [hac]
          · subst hac
            rw [if_neg (lt_irrefl a), if_neg (lt_irrefl a)] at h2 ⊢
            exact ih bs cs h1 h2
          · rw [if_neg (lt_asymm hac), if_pos hac] at h2
            exact absurd h2 (by simp)
        · rw [if_neg (lt_asymm hab), if_pos hab] at h1
          exact absurd h1 (by simp)

theorem strLe_total : ∀ s t : Str, strLe s t ∨ strLe t s := by
  intro s t
  by_cases h : strCmp s t = Ordering.gt
  · right
    unfold strLe
    rw [strCmp_swap s t, h]
    simp [Ordering.swap]
  · left
    exact h

theorem strLe_trans : ∀ s t u : Str, strLe s t → strLe t u → strLe s u := by
  intro s t u h1 h2
  unfold strLe at h1 h2 ⊢
  cases hst : strCmp s t with
  | gt => exact absurd hst h1
  | eq =>
    have : s = t := (strCmp_eq_iff s t).mp hst
    subst this
    exact h2
  | lt =>
    cases htu : strCmp t u with
    | gt => exact absurd htu h2
    | eq =>
      have : t = u := (strCmp_eq_iff t u).mp htu
      subst this
      simp [hst]
    | lt =>
      simp [strCmp_lt_trans s t u hst htu]

theorem itemLe_total : ∀ a b : BrowserItem, itemLe a b ∨ itemLe b a := by
  intro a b
  unfold itemLe itemCmp
  cases ha : (a.file_type == FileType.Directory) <;>
    cases hb : (b.file_type == FileType.Directory) <;> simp only []
  · exact strLe_total (lower a.name) (lower b.name)
  · right; simp
  · left; simp
  · exact strLe_total (lower a.name) (lower b.name)

theorem itemLe_trans : ∀ a b c : BrowserItem, itemLe a b → itemLe b c → itemLe a c := by
  intro a b c h1 h2
  unfold itemLe itemCmp at h1 h2 ⊢
  cases ha : (a.file_type == FileType.Directory) <;>
    cases hb : (b.file_type == FileType.Directory) <;>
      cases hc : (c.file_type == FileType.Directory) <;>
        simp only [ha, hb, hc] at h1 h2 ⊢ <;>
          first
          | exact strLe_trans _ _ _ h1 h2
          | exact absurd rfl h1
          | exact absurd rfl h2
          | decide

/-! Field-preservation helpers for the state operations. -/

theorem play_queue_item_preserves (dec : Str → Option (Option Nat)) (a : App) :
    (play_queue_item dec a).queue = a.queue
    ∧ (play_queue_item dec a).queue_index = a.queue_index
    ∧ (play_queue_item dec a).browser_items = a.browser_items
    ∧ (play_queue_item dec a).browser_index = a.browser_index
    ∧ (play_queue_item dec a).current_directory = a.current_directory
    ∧ (play_queue_item dec a).volume = a.volume
    ∧ (play_queue_item dec a).tick_counter = a.tick_counter := by
  unfold play_queue_item
  cases h : a.queue[a.queue_index]? with
  | none => simp
  | some p => cases hd : dec p <;> simp [hd]

theorem next_track_preserves (dec : Str → Option (Option Nat)) (a : App) :
    (next_track dec a).queue = a.queue
    ∧ (next_track dec a).browser_items = a.browser_items
    ∧ (next_track dec a).browser_index = a.browser_index
    ∧ (next_track dec a).tick_counter = a.tick_counter
    ∧ (next_track dec a).volume = a.volume := by
  unfold next_track
  cases he : a.queue.isEmpty
  · simp only [Bool.false_eq_true, if_false]
    by_cases hlt : a.queue_index + 1 < a.queue.length <;>
      simp [hlt, play_queue_item_preserves]
  · simp

theorem prev_track_preserves (dec : Str → Option (Option Nat)) (a : App) :
    (prev_track dec a).queue = a.queue
    ∧ (prev_track dec a).browser_items = a.browser_items
    ∧ (prev_track dec a).browser_index = a.browser_index
    ∧ (prev_track dec a).tick_counter = a.tick_counter
    ∧ (prev_track dec a).volume = a.volume := by
  unfold prev_track
  cases he : a.queue.isEmpty
  · simp only [Bool.false_eq_true, if_false]
    by_cases hpos : a.queue_index > 0 <;>
      simp [hpos, play_queue_item_preserves]
  · simp

/-! Helpers about `findIdx?`, used for `enter_selected`'s position lookup. -/

theorem findIdx?_beq_isSome (x : Str) :
    ∀ l : List Str, x ∈ l → ∃ i, l.findIdx? (fun p => p == x) = some i := by
  intro l hx
  have h1 : (l.findIdx? (fun p => p == x)).isSome = true := by
    rw [List.findIdx?_isSome, List.any_eq_true]
    exact ⟨x, hx, by simp⟩
  exact Option.isSome_iff_exists.mp h1

theorem findIdx?_beq_getElem (x : Str) :
    ∀ (l : List Str) (i : Nat), l.findIdx? (fun p => p == x) = some i → l[i]? = some x := by
  intro l
  induction l with
  | nil => intro i h; exact Option.noConfusion h
  | cons a as ih =>
    intro i h
    rw [List.findIdx?_cons] at h
    by_cases ha : (a == x) = true
    · rw [if_pos ha] at h
      cases h
      simp [eq_of_beq ha]
    · rw [if_neg (by simpa using ha), List.findIdx?_succ] at h
      simp only [Option.map_eq_some'] at h
      obtain ⟨j, hj, hij⟩ := h
      subst hij
      simpa using ih j hj

/-! Sortedness of the two sorts, as `Pairwise` facts. -/

theorem sorted_items (l : List BrowserItem) :
    List.Pairwise itemLe (List.insertionSort itemLe l) := by
  haveI : IsTotal BrowserItem itemLe := ⟨itemLe_total⟩
  haveI : IsTrans BrowserItem itemLe := ⟨itemLe_trans⟩
  exact List.sorted_insertionSort itemLe l

theorem sorted_paths (l : List Str) :
    List.Pairwise strLe (List.insertionSort strLe l) := by
  haveI : IsTotal Str strLe := ⟨strLe_total⟩
  haveI : IsTrans Str strLe := ⟨strLe_trans⟩
  exact List.sorted_insertionSort strLe l

/-- C10: when the engine is not playing, `on_tick` leaves the entire state
unchanged — elapsed, tick counter, queue, queue index, duration, playing
flag and everything else — and in particular performs no track advance,
whatever the sink, queue and duration say. -/
theorem c10_on_tick_not_playing (dec : Str → Option (Option Nat)) (a : App)
    (h : a.is_playing = false) : on_tick dec a = a := by
  unfold on_tick
  simp [h]

/-- Witness for C10 at a concrete stopped state. -/
theorem c10_witness : app0.is_playing = false ∧ on_tick dec0 app0 = app0 :=
  ⟨rfl, c10_on_tick_not_playing dec0 app0 rfl⟩

/-- C5: `toggle_play` on a freshly constructed engine (empty queue, empty
unpaused sink, not playing) leaves every component of the playback state
unchanged: the engine stays stopped. -/
theorem c5_toggle_play_fresh (dec : Str → Option (Option Nat)) (a : App)
    (hq : a.queue = []) (hs : a.sink.empty = true) (hp : a.sink.paused = false)
    (_hpl : a.is_playing = false) :
    (toggle_play dec a).is_playing = false
    ∧ (toggle_play dec a).queue = a.queue
    ∧ (toggle_play dec a).queue_index = a.queue_index
    ∧ (toggle_play dec a).volume = a.volume
    ∧ (toggle_play dec a).elapsed = a.elapsed
    ∧ (toggle_play dec a).duration = a.duration
    ∧ (toggle_play dec a).tick_counter = a.tick_counter
    ∧ (toggle_play dec a).browser_items = a.browser_items
    ∧ (toggle_play dec a).browser_index = a.browser_index
    ∧ (toggle_play dec a).current_directory = a.current_directory := by
  unfold toggle_play
  simp [hq, hs, hp]

/-- Witness for C5 at the freshly constructed engine state. -/
theorem c5_witness :
    (app0.queue = [] ∧ app0.sink.empty = true ∧ app0.sink.paused = false
      ∧ app0.is_playing = false)
    ∧ ((toggle_play dec0 app0).is_playing = false
        ∧ (toggle_play dec0 app0).queue = app0.queue
        ∧ (toggle_play dec0 app0).queue_index = app0.queue_index
        ∧ (toggle_play dec0 app0).volume = app0.volume
        ∧ (toggle_play dec0 app0).elapsed = app0.elapsed
        ∧ (toggle_play dec0 app0).duration = app0.duration
        ∧ (toggle_play dec0 app0).tick_counter = app0.tick_counter
        ∧ (toggle_play dec0 app0).browser_items = app0.browser_items
        ∧ (toggle_play dec0 app0).browser_index = app0.browser_index
        ∧ (toggle_play dec0 app0).current_directory = app0.current_directory) :=
  ⟨⟨rfl, rfl, rfl, rfl⟩, c5_toggle_play_fresh dec0 app0 rfl rfl rfl rfl⟩

/-- C9: `volume_up` adds 5 clamping above at 100, `volume_down` subtracts 5
saturating below at 0 (ℕ subtraction), any sequence of volume commands
keeps the volume in [0, 100], and five `volume_up` presses from volume 0
give exactly 25. -/
theorem c9_volume_clamped :
    (∀ a : App, (volume_up a).volume = min (a.volume + 5) 100
      ∧ (volume_down a).volume = a.volume - 5
      ∧ (volume_up a).sink.volume = (volume_up a).volume
      ∧ (volume_down a).sink.volume = (volume_down a).volume)
    ∧ (∀ (ops : List VolOp) (a : App), a.volume ≤ 100 →
        (ops.foldl (fun s o => applyVolOp o s) a).volume ≤ 100)
    ∧ (volume_up^[5] { app0 with volume := 0 }).volume = 25 := by
  refine ⟨fun a => ⟨rfl, rfl, rfl, rfl⟩, ?_, by decide⟩
  intro ops
  induction ops with
  | nil => intro a h; exact h
  | cons o os ih =>
    intro a h
    simp only [List.foldl_cons]
    apply ih
    cases o with
    | up => exact min_le_right _ _
    | down => exact le_trans (Nat.sub_le _ _) h

/-- Witness for C9: two presses up from the fresh state stay clamped. -/
theorem c9_witness :
    app0.volume ≤ 100
    ∧ (([VolOp.up, VolOp.up, VolOp.down].foldl (fun s o => applyVolOp o s) app0).volume ≤ 100) :=
  ⟨by decide, c9_volume_clamped.2.1 [VolOp.up, VolOp.up, VolOp.down] app0 (by decide)⟩

/-! Single-step index arithmetic of the two advance operations. -/

theorem next_track_step (dec : Str → Option (Option Nat)) (b : App)
    (hq : b.queue ≠ []) (hi : b.queue_index < b.queue.length) :
    (next_track dec b).queue = b.queue
    ∧ (next_track dec b).queue_index = (b.queue_index + 1) % b.queue.length := by
  have he : b.queue.isEmpty = false := List.isEmpty_eq_false.mpr hq
  unfold next_track
  by_cases hlt : b.queue_index + 1 < b.queue.length
  · simp [he, hlt, play_queue_item_preserves, Nat.mod_eq_of_lt hlt]
  · have hlen : b.queue_index + 1 = b.queue.length := by omega
    simp [he, hlt, play_queue_item_preserves, hlen, Nat.mod_self]

theorem prev_track_step (dec : Str → Option (Option Nat)) (b : App)
    (hq : b.queue ≠ []) (hi : b.queue_index < b.queue.length) :
    (prev_track dec b).queue = b.queue
    ∧ (prev_track dec b).queue_index
        = (b.queue_index + (b.queue.length - 1)) % b.queue.length := by
  have he : b.queue.isEmpty = false := List.isEmpty_eq_false.mpr hq
  have hlen : 0 < b.queue.length := List.length_pos.mpr hq
  unfold prev_track
  by_cases hpos : b.queue_index > 0
  · have h1 : b.queue_index + (b.queue.length - 1) = (b.queue_index - 1) + b.queue.length := by
      omega
    simp [he, hpos, play_queue_item_preserves, h1, Nat.add_mod_right,
      Nat.mod_eq_of_lt (show b.queue_index - 1 < b.queue.length by omega)]
  · have h0 : b.queue_index = 0 := by omega
    simp [he, hpos, play_queue_item_preserves, h0,
      Nat.mod_eq_of_lt (show b.queue.length - 1 < b.queue.length by omega)]

/-- Iterating a step that preserves the queue and advances the index by a
fixed amount `c` modulo the (fixed) length. -/
theorem iterate_index_mod (f : App → App) (c len : Nat) (hlen : 0 < len)
    (hf : ∀ b : App, b.queue.length = len → b.queue_index < len →
      (f b).queue = b.queue ∧ (f b).queue_index = (b.queue_index + c) % len) :
    ∀ (k : Nat) (a : App), a.queue.length = len → a.queue_index < len →
      (f^[k] a).queue = a.queue ∧ (f^[k] a).queue_index = (a.queue_index + k * c) % len := by
  intro k
  induction k with
  | zero =>
    intro a hq hi
    exact ⟨rfl, by simp [Nat.mod_eq_of_lt hi]⟩
  | succ k ih =>
    intro a hq hi
    rw [Function.iterate_succ_apply]
    obtain ⟨hfq, hfi⟩ := hf a hq hi
    have hq' : (f a).queue.length = len := by rw [hfq]; exact hq
    have hi' : (f a).queue_index < len := by rw [hfi]; exact Nat.mod_lt _ hlen
    obtain ⟨h1, h2⟩ := ih (f a) hq' hi'
    refine ⟨by rw [h1, hfq], ?_⟩
    rw [h2, hfi, Nat.mod_add_mod]
    congr 1
    ring

/-- C3: on a non-empty queue with an in-range index, `next_track` moves the
index to `(i + 1) % len` and `prev_track` to `len - 1` when `i = 0` and to
`i - 1` otherwise; both are no-ops on an empty queue; and `len` consecutive
applications of either return the index to its starting value. -/
theorem c3_advance_wraparound (dec : Str → Option (Option Nat)) (a : App) :
    (a.queue = [] → next_track dec a = a ∧ prev_track dec a = a)
    ∧ (a.queue ≠ [] → a.queue_index < a.queue.length →
        (next_track dec a).queue_index = (a.queue_index + 1) % a.queue.length
        ∧ (prev_track dec a).queue_index
            = (if a.queue_index = 0 then a.queue.length - 1 else a.queue_index - 1)
        ∧ ((next_track dec)^[a.queue.length] a).queue_index = a.queue_index
        ∧ ((prev_track dec)^[a.queue.length] a).queue_index = a.queue_index) := by
  constructor
  · intro h
    have he : a.queue.isEmpty = true := by simp [h]
    constructor
    · unfold next_track
      simp [he]
    · unfold prev_track
      simp [he]
  · intro hq hi
    have hlen : 0 < a.queue.length := List.length_pos.mpr hq
    have hnext : ∀ b : App, b.queue.length = a.queue.length → b.queue_index < a.queue.length →
        (next_track dec b).queue = b.queue
        ∧ (next_track dec b).queue_index = (b.queue_index + 1) % a.queue.length := by
      intro b h1 h2
      have hb : b.queue ≠ [] := by
        intro hnil
        rw [hnil] at h1
        simp at h1
        omega
      have := next_track_step dec b hb (by omega)
      rw [h1] at this
      exact this
    have hprev : ∀ b : App, b.queue.length = a.queue.length → b.queue_index < a.queue.length →
        (prev_track dec b).queue = b.queue
        ∧ (prev_track dec b).queue_index
            = (b.queue_index + (a.queue.length - 1)) % a.queue.length := by
      intro b h1 h2
      have hb : b.queue ≠ [] := by
        intro hnil
        rw [hnil] at h1
        simp at h1
        omega
      have := prev_track_step dec b hb (by omega)
      rw [h1] at this
      exact this
    refine ⟨(next_track_step dec a hq hi).2, ?_, ?_, ?_⟩
    · rw [(prev_track_step dec a hq hi).2]
      by_cases h0 : a.queue_index = 0
      · rw [if_pos h0, h0]
        simp [Nat.mod_eq_of_lt (show a.queue.length - 1 < a.queue.length by omega)]
      · rw [if_neg h0]
        have h1 : a.queue_index + (a.queue.length - 1) = (a.queue_index - 1) + a.queue.length := by
          omega
        rw [h1, Nat.add_mod_right,
          Nat.mod_eq_of_lt (show a.queue_index - 1 < a.queue.length by omega)]
    · have := (iterate_index_mod (next_track dec) 1 a.queue.length hlen hnext
        a.queue.length a rfl hi).2
      rw [this, Nat.add_mul_mod_self_left, Nat.mod_eq_of_lt hi]
    · have := (iterate_index_mod (prev_track dec) (a.queue.length - 1) a.queue.length hlen hprev
        a.queue.length a rfl hi).2
      rw [this, Nat.add_mul_mod_self_left, Nat.mod_eq_of_lt hi]

/-- Witness for C3 on the concrete two-element queue at index 1. -/
theorem c3_witness :
    app3.queue ≠ [] ∧ app3.queue_index < app3.queue.length
    ∧ ((next_track dec0 app3).queue_index = (app3.queue_index + 1) % app3.queue.length
        ∧ (prev_track dec0 app3).queue_index
            = (if app3.queue_index = 0 then app3.queue.length - 1 else app3.queue_index - 1)
        ∧ ((next_track dec0)^[app3.queue.length] app3).queue_index = app3.queue_index
        ∧ ((prev_track dec0)^[app3.queue.length] app3).queue_index = app3.queue_index) :=
  ⟨by decide, by decide,
    (c3_advance_wraparound dec0 app3).2 (by decide) (by decide)⟩

/-- C1: while playing, one `on_tick` first adds one 250 ms tick to
`elapsed` and increments the tick counter (state `tickProgress a`), and
then calls `next_track` on that state exactly once if and only if the sink
is empty, the queue is non-empty and a duration was previously captured;
otherwise the tick leaves everything else unchanged. The tick counter ends
at its old value plus one in either case. -/
theorem c1_on_tick_playing (dec : Str → Option (Option Nat)) (a : App)
    (h : a.is_playing = true) :
    on_tick dec a =
      (if a.sink.empty = true ∧ a.queue ≠ [] ∧ a.duration.isSome = true
        then next_track dec (tickProgress a) else tickProgress a)
    ∧ (on_tick dec a).tick_counter = a.tick_counter + 1
    ∧ (¬(a.sink.empty = true ∧ a.queue ≠ [] ∧ a.duration.isSome = true) →
        on_tick dec a = tickProgress a) := by
  have hmain : on_tick dec a =
      (if a.sink.empty = true ∧ a.queue ≠ [] ∧ a.duration.isSome = true
        then next_track dec (tickProgress a) else tickProgress a) := by
    unfold on_tick
    by_cases hc : a.sink.empty = true ∧ a.queue ≠ [] ∧ a.duration.isSome = true
    · obtain ⟨h1, h2, h3⟩ := hc
      have h2' : a.queue.isEmpty = false := List.isEmpty_eq_false.mpr h2
      simp [h, h1, h2, h2', h3, tickProgress]
    · rw [if_neg hc]
      simp only [h, if_true]
      push_neg at hc
      by_cases h1 : a.sink.empty = true
      · by_cases h2 : a.queue = []
        · have h2' : a.queue.isEmpty = true := by simp [h2]
          simp [h1, h2', tickProgress]
        · have h3 : a.duration.isSome = false := by
            have := hc h1 h2
            simp [Bool.not_eq_true] at this ⊢
            exact this
          have h2' : a.queue.isEmpty = false := List.isEmpty_eq_false.mpr h2
          simp [h1, h2', h3, tickProgress]
      · have h1' : a.sink.empty = false := by
          simp [Bool.not_eq_true] at h1
          exact h1
        simp [h1', tickProgress]
  refine ⟨hmain, ?_, ?_⟩
  · rw [hmain]
    by_cases hc : a.sink.empty = true ∧ a.queue ≠ [] ∧ a.duration.isSome = true
    · rw [if_pos hc, (next_track_preserves dec (tickProgress a)).2.2.2.1]
      rfl
    · rw [if_neg hc]
      rfl
  · intro hc
    rw [hmain, if_neg hc]

/-- Witness for C1 at a concrete playing state in which the auto-advance
condition holds, so the tick advances exactly once. -/
theorem c1_witness :
    app4.is_playing = true
    ∧ (on_tick dec0 app4 =
        (if app4.sink.empty = true ∧ app4.queue ≠ [] ∧ app4.duration.isSome = true
          then next_track dec0 (tickProgress app4) else tickProgress app4)
      ∧ (on_tick dec0 app4).tick_counter = app4.tick_counter + 1
      ∧ (¬(app4.sink.empty = true ∧ app4.queue ≠ [] ∧ app4.duration.isSome = true) →
          on_tick dec0 app4 = tickProgress app4)) :=
  ⟨rfl, c1_on_tick_playing dec0 app4 rfl⟩

/-- C4 counterexample: the claim says a failed load leaves `is_playing`
false, but `play_queue_item` never writes `is_playing` on the failure
path. In the playing state `app4`, with a decode oracle that fails on
every path, the failed load leaves `is_playing` at `true`. -/
theorem c4_counterexample :
    app4.queue[app4.queue_index]? = some "x.mp3".data
    ∧ dec0 "x.mp3".data = none
    ∧ (play_queue_item dec0 app4).is_playing = true := by
  refine ⟨by decide, rfl, by decide⟩

/-- C4 (amended): when the current queue item exists but fails to open or
decode, `play_queue_item` leaves the engine with no active audio (the sink
is freshly recreated and empty) and raises no error and performs no skip:
`is_playing`, `duration`, `elapsed`, the queue, the queue index and the
browser state are all left at their previous values (`is_playing` is left
unchanged — thus false whenever it was false before — rather than being
forced to false as the original claim stated). -/
theorem c4_load_failure (dec : Str → Option (Option Nat)) (a : App) (p : Str)
    (hget : a.queue[a.queue_index]? = some p) (hdec : dec p = none) :
    (play_queue_item dec a).is_playing = a.is_playing
    ∧ (play_queue_item dec a).duration = a.duration
    ∧ (play_queue_item dec a).elapsed = a.elapsed
    ∧ (play_queue_item dec a).queue = a.queue
    ∧ (play_queue_item dec a).queue_index = a.queue_index
    ∧ (play_queue_item dec a).browser_items = a.browser_items
    ∧ (play_queue_item dec a).browser_index = a.browser_index
    ∧ (play_queue_item dec a).sink.empty = true := by
  unfold play_queue_item
  rw [hget]
  simp [hdec]

/-- Witness for C4 (amended) at a concrete stopped state with a failing
decode. -/
theorem c4_witness :
    (app3.queue[app3.queue_index]? = some "d/y.mp3".data ∧ dec0 "d/y.mp3".data = none)
    ∧ ((play_queue_item dec0 app3).is_playing = app3.is_playing
      ∧ (play_queue_item dec0 app3).duration = app3.duration
      ∧ (play_queue_item dec0 app3).elapsed = app3.elapsed
      ∧ (play_queue_item dec0 app3).queue = app3.queue
      ∧ (play_queue_item dec0 app3).queue_index = app3.queue_index
      ∧ (play_queue_item dec0 app3).browser_items = app3.browser_items
      ∧ (play_queue_item dec0 app3).browser_index = app3.browser_index
      ∧ (play_queue_item dec0 app3).sink.empty = true) :=
  ⟨⟨by decide, rfl⟩, c4_load_failure dec0 app3 "d/y.mp3".data (by decide) rfl⟩

/-- On a successful open and decode, `play_queue_item` captures the
duration, resets elapsed and marks Playing. -/
theorem play_queue_item_success (dec : Str → Option (Option Nat)) (a : App) (p : Str)
    (d : Option Nat) (hget : a.queue[a.queue_index]? = some p) (hdec : dec p = some d) :
    (play_queue_item dec a).is_playing = true
    ∧ (play_queue_item dec a).elapsed = 0
    ∧ (play_queue_item dec a).duration = d := by
  unfold play_queue_item
  rw [hget]
  simp [hdec]

/-- `enter_selected` on an audio selection: the committed queue is every
listed AudioFile in display order and the new index is the position of the
selected file's path in that queue. -/
theorem enter_selected_audio_eq (fs : Fs) (dec : Str → Option (Option Nat)) (a : App)
    (hidx : a.browser_index < a.browser_items.length)
    (hsel : (a.browser_items.getD a.browser_index defaultItem).file_type = FileType.AudioFile) :
    ∃ idx,
      (audioQueue a).findIdx?
          (fun p => p == (a.browser_items.getD a.browser_index defaultItem).path) = some idx
      ∧ idx < (audioQueue a).length
      ∧ (audioQueue a)[idx]? = some (a.browser_items.getD a.browser_index defaultItem).path
      ∧ enter_selected fs dec a
          = play_queue_item dec { a with queue := audioQueue a, queue_index := idx } := by
  have hmem : a.browser_items.getD a.browser_index defaultItem ∈ a.browser_items := by
    rw [List.getD_eq_getElem _ _ hidx]
    exact List.getElem_mem hidx
  have hqmem : (a.browser_items.getD a.browser_index defaultItem).path ∈ audioQueue a := by
    unfold audioQueue
    exact List.mem_map_of_mem _ (List.mem_filter.mpr ⟨hmem, by rw [hsel]; rfl⟩)
  obtain ⟨idx, hfind⟩ :=
    findIdx?_beq_isSome (a.browser_items.getD a.browser_index defaultItem).path
      (audioQueue a) hqmem
  obtain ⟨hlt, -⟩ := List.findIdx?_eq_some_iff_findIdx_eq.mp hfind
  have hget :=
    findIdx?_beq_getElem (a.browser_items.getD a.browser_index defaultItem).path
      (audioQueue a) idx hfind
  refine ⟨idx, hfind, hlt, hget, ?_⟩
  have hne : a.browser_items.isEmpty = false := by
    rw [List.isEmpty_eq_false]
    intro h0
    rw [h0] at hidx
    simp at hidx
  unfold enter_selected
  simp only [hne, Bool.false_eq_true, if_false, hsel, hfind]

/-- C2: on a non-empty listing whose selection is an AudioFile,
`enter_selected` commits as the new queue every AudioFile currently listed
(in display order, not just the selected one), sets the queue index to the
position of the selected file's path in that queue, and starts playback at
that index (the engine is Playing whenever the selected file decodes). -/
theorem c2_enter_selected_audio (fs : Fs) (dec : Str → Option (Option Nat)) (a : App)
    (hidx : a.browser_index < a.browser_items.length)
    (hsel : (a.browser_items.getD a.browser_index defaultItem).file_type = FileType.AudioFile) :
    ∃ idx,
      (audioQueue a).findIdx?
          (fun p => p == (a.browser_items.getD a.browser_index defaultItem).path) = some idx
      ∧ enter_selected fs dec a
          = play_queue_item dec { a with queue := audioQueue a, queue_index := idx }
      ∧ (enter_selected fs dec a).queue = audioQueue a
      ∧ (enter_selected fs dec a).queue_index = idx
      ∧ (audioQueue a)[idx]? = some (a.browser_items.getD a.browser_index defaultItem).path
      ∧ (∀ d, dec (a.browser_items.getD a.browser_index defaultItem).path = some d →
          (enter_selected fs dec a).is_playing = true) := by
  obtain ⟨idx, hfind, hlt, hget, heq⟩ := enter_selected_audio_eq fs dec a hidx hsel
  refine ⟨idx, hfind, heq, ?_, ?_, hget, ?_⟩
  · rw [heq]
    exact (play_queue_item_preserves dec _).1
  · rw [heq]
    exact (play_queue_item_preserves dec _).2.1
  · intro d hd
    rw [heq]
    exact (play_queue_item_success dec _ _ d hget hd).1

/-- Witness for C2 on a two-file listing with the second file selected. -/
theorem c2_witness :
    (app2.browser_index < app2.browser_items.length
      ∧ (app2.browser_items.getD app2.browser_index defaultItem).file_type = FileType.AudioFile)
    ∧ ∃ idx,
      (audioQueue app2).findIdx?
          (fun p => p == (app2.browser_items.getD app2.browser_index defaultItem).path) = some idx
      ∧ enter_selected fs6 decOk app2
          = play_queue_item decOk { app2 with queue := audioQueue app2, queue_index := idx }
      ∧ (enter_selected fs6 decOk app2).queue = audioQueue app2
      ∧ (enter_selected fs6 decOk app2).queue_index = idx
      ∧ (audioQueue app2)[idx]? = some (app2.browser_items.getD app2.browser_index defaultItem).path
      ∧ (∀ d, decOk (app2.browser_items.getD app2.browser_index defaultItem).path = some d →
          (enter_selected fs6 decOk app2).is_playing = true) :=
  ⟨⟨by decide, by decide⟩, c2_enter_selected_audio fs6 decOk app2 (by decide) (by decide)⟩

/-- `itemLe` never places an AudioFile before a Directory. -/
theorem itemLe_dirs_first {x y : BrowserItem} (h : itemLe x y) :
    ¬(x.file_type = FileType.AudioFile ∧ y.file_type = FileType.Directory) := by
  rintro ⟨hx, hy⟩
  apply h
  unfold itemCmp
  rw [hx, hy]
  rfl

/-- Within one classification group, `itemLe` is the case-insensitive name
order. -/
theorem itemLe_same_group {x y : BrowserItem} (h : itemLe x y)
    (heq : x.file_type = y.file_type) :
    strCmp (lower x.name) (lower y.name) ≠ Ordering.gt := by
  intro hgt
  apply h
  unfold itemCmp
  rw [heq]
  cases hd : (y.file_type == FileType.Directory) <;> simp [hd, hgt]

/-- The browser listing produced by a successful directory read. -/
theorem load_directory_items (fs : Fs) (p : Str) (a : App) (es : List RawEntry)
    (hdirp : fs.isDirPath p = true) (hread : fs.readDir p = some es) :
    (load_directory fs p a).browser_items
      = List.insertionSort itemLe
          ((es.map (fun e =>
              { path := e.path, name := e.name, file_type := classify e : BrowserItem })).filter
            (fun item => !(item.file_type == FileType.Other))) := by
  unfold load_directory
  simp [hdirp, hread]

/-- C6: a successful scan lists no Other-classified entry, never places an
AudioFile before a Directory, and within a single classification group is
in ascending case-insensitive name order; concretely, a directory holding
`b.mp3`, `A.mp3` and the subdirectory `sub` scans to `[sub, A.mp3, b.mp3]`. -/
theorem c6_scan_order (fs : Fs) (p : Str) (a : App) (es : List RawEntry)
    (hdirp : fs.isDirPath p = true) (hread : fs.readDir p = some es) :
    (∀ it ∈ (load_directory fs p a).browser_items, it.file_type ≠ FileType.Other)
    ∧ List.Pairwise
        (fun x y => ¬(x.file_type = FileType.AudioFile ∧ y.file_type = FileType.Directory))
        (load_directory fs p a).browser_items
    ∧ List.Pairwise
        (fun x y => x.file_type = y.file_type →
          strCmp (lower x.name) (lower y.name) ≠ Ordering.gt)
        (load_directory fs p a).browser_items
    ∧ (load_directory fs6 "d".data app0).browser_items.map (fun it => it.name)
        = ["sub".data, "A.mp3".data, "b.mp3".data] := by
  have hitems := load_directory_items fs p a es hdirp hread
  refine ⟨?_, ?_, ?_, by decide⟩
  · intro it hit
    rw [hitems, List.mem_insertionSort] at hit
    have hpred := (List.mem_filter.mp hit).2
    intro hother
    rw [hother] at hpred
    simp at hpred
  · rw [hitems]
    exact (sorted_items _).imp (fun h => itemLe_dirs_first h)
  · rw [hitems]
    exact (sorted_items _).imp (fun h heq => itemLe_same_group h heq)

/-- Witness for C6 on the concrete directory `d` of the §8 scenario. -/
theorem c6_witness :
    (fs6.isDirPath "d".data = true ∧ fs6.readDir "d".data = some [entryB, entryA, entrySub])
    ∧ ((∀ it ∈ (load_directory fs6 "d".data app0).browser_items, it.file_type ≠ FileType.Other)
      ∧ List.Pairwise
          (fun x y => ¬(x.file_type = FileType.AudioFile ∧ y.file_type = FileType.Directory))
          (load_directory fs6 "d".data app0).browser_items
      ∧ List.Pairwise
          (fun x y => x.file_type = y.file_type →
            strCmp (lower x.name) (lower y.name) ≠ Ordering.gt)
          (load_directory fs6 "d".data app0).browser_items
      ∧ (load_directory fs6 "d".data app0).browser_items.map (fun it => it.name)
          = ["sub".data, "A.mp3".data, "b.mp3".data]) :=
  ⟨⟨by decide, by decide⟩,
    c6_scan_order fs6 "d".data app0 [entryB, entryA, entrySub] (by decide) (by decide)⟩

/-- C7 counterexample: the claim says `play_folder` scans for audio files
only, ignoring subdirectories, yet its filter looks at the extension alone.
With `d` containing only the subdirectory `x.mp3`, the claim requires the
queue (empty, since no audio file exists) to stay unchanged, but the code
enqueues the subdirectory's path and commits it as the new queue. -/
theorem c7_counterexample :
    entryOdd.isDir = true
    ∧ fs7.readDir "d".data = some [entryOdd]
    ∧ app7.queue = []
    ∧ (play_folder fs7 dec0 app7).queue = ["d/x.mp3".data] := by
  refine ⟨rfl, by decide, rfl, by decide⟩

/-- C7 (amended): `play_folder` acts only when the selection is a
Directory (otherwise, or on an unreadable directory, it is a no-op); it
scans that directory for entries whose extension (case-insensitively) is a
recognized audio extension — regardless of whether the entry is a file or
a subdirectory — sorts their paths by raw path order, and if the resulting
list is non-empty replaces the queue with it and starts playback at index
0; if the list is empty the whole state, queue and index included, is left
unchanged. -/
theorem c7_play_folder (fs : Fs) (dec : Str → Option (Option Nat)) (a : App) :
    ((a.browser_items.getD a.browser_index defaultItem).file_type ≠ FileType.Directory →
      play_folder fs dec a = a)
    ∧ (a.browser_items = [] → play_folder fs dec a = a)
    ∧ ((a.browser_items.getD a.browser_index defaultItem).file_type = FileType.Directory →
        a.browser_items ≠ [] →
        fs.readDir (a.browser_items.getD a.browser_index defaultItem).path = none →
        play_folder fs dec a = a)
    ∧ ((a.browser_items.getD a.browser_index defaultItem).file_type = FileType.Directory →
        a.browser_items ≠ [] →
        ∀ es, fs.readDir (a.browser_items.getD a.browser_index defaultItem).path = some es →
          (folderFiles es = [] → play_folder fs dec a = a)
          ∧ (folderFiles es ≠ [] →
              play_folder fs dec a
                  = play_queue_item dec { a with queue := folderFiles es, queue_index := 0 }
              ∧ (play_folder fs dec a).queue = folderFiles es
              ∧ (play_folder fs dec a).queue_index = 0
              ∧ List.Pairwise strLe (play_folder fs dec a).queue
              ∧ (∀ q ∈ (play_folder fs dec a).queue,
                  ∃ e ∈ es, hasAudioExt e = true ∧ e.path = q))) := by
  refine ⟨?_, ?_, ?_, ?_⟩
  · intro hsel
    have hbeq : ((a.browser_items.getD a.browser_index defaultItem).file_type
        == FileType.Directory) = false := beq_eq_false_iff_ne.mpr hsel
    unfold play_folder
    cases hne : a.browser_items.isEmpty
    · simp only [hne, Bool.false_eq_true, if_false, hbeq]
    · simp only [hne, eq_self_iff_true, if_true]
  · intro h0
    have h0' : a.browser_items.isEmpty = true := by simp [h0]
    unfold play_folder
    simp only [h0', eq_self_iff_true, if_true]
  · intro hsel hne hnone
    have hne' : a.browser_items.isEmpty = false := List.isEmpty_eq_false.mpr hne
    have hbeq : ((a.browser_items.getD a.browser_index defaultItem).file_type
        == FileType.Directory) = true := beq_iff_eq.mpr hsel
    unfold play_folder
    simp only [hne', Bool.false_eq_true, if_false, hbeq, eq_self_iff_true, if_true, hnone]
  · intro hsel hne es hes
    have hne' : a.browser_items.isEmpty = false := List.isEmpty_eq_false.mpr hne
    have hbeq : ((a.browser_items.getD a.browser_index defaultItem).file_type
        == FileType.Directory) = true := beq_iff_eq.mpr hsel
    constructor
    · intro hnil
      have hfe : (folderFiles es).isEmpty = true := by simp [hnil]
      unfold play_folder
      simp only [hne', Bool.false_eq_true, if_false, hbeq, eq_self_iff_true, if_true, hes,
        hfe, Bool.not_true]
    · intro hnonempty
      have hfe : (folderFiles es).isEmpty = false := List.isEmpty_eq_false.mpr hnonempty
      have heq : play_folder fs dec a
          = play_queue_item dec { a with queue := folderFiles es, queue_index := 0 } := by
        unfold play_folder
        simp only [hne', Bool.false_eq_true, if_false, hbeq, eq_self_iff_true, if_true, hes,
          hfe, Bool.not_false]
      refine ⟨heq, ?_, ?_, ?_, ?_⟩
      · rw [heq]
        exact (play_queue_item_preserves dec _).1
      · rw [heq]
        exact (play_queue_item_preserves dec _).2.1
      · rw [heq]
        have hq : (play_queue_item dec { a with queue := folderFiles es, queue_index := 0 }).queue
            = folderFiles es := (play_queue_item_preserves dec _).1
        rw [hq]
        exact sorted_paths _
      · rw [heq]
        have hq : (play_queue_item dec { a with queue := folderFiles es, queue_index := 0 }).queue
            = folderFiles es := (play_queue_item_preserves dec _).1
        rw [hq]
        intro q hq'
        rw [folderFiles, List.mem_insertionSort, List.mem_map] at hq'
        obtain ⟨e, he, hep⟩ := hq'
        exact ⟨e, (List.mem_filter.mp he).1, (List.mem_filter.mp he).2, hep⟩

/-- Witness for C7 (amended) on the concrete directory `d` holding the
pseudo-audio subdirectory. -/
theorem c7_witness :
    ((app7.browser_items.getD app7.browser_index defaultItem).file_type = FileType.Directory
      ∧ app7.browser_items ≠ []
      ∧ fs7.readDir (app7.browser_items.getD app7.browser_index defaultItem).path
          = some [entryOdd]
      ∧ folderFiles [entryOdd] ≠ [])
    ∧ (play_folder fs7 dec0 app7
          = play_queue_item dec0 { app7 with queue := folderFiles [entryOdd], queue_index := 0 }
        ∧ (play_folder fs7 dec0 app7).queue = folderFiles [entryOdd]
        ∧ (play_folder fs7 dec0 app7).queue_index = 0
        ∧ List.Pairwise strLe (play_folder fs7 dec0 app7).queue
        ∧ (∀ q ∈ (play_folder fs7 dec0 app7).queue,
            ∃ e ∈ [entryOdd], hasAudioExt e = true ∧ e.path = q)) :=
  ⟨⟨by decide, by decide, by decide, by decide⟩,
    ((c7_play_folder fs7 dec0 app7).2.2.2 (by decide) (by decide) [entryOdd] (by decide)).2
      (by decide)⟩

/-! Preservation of the index invariants by every operation. -/

theorem inv_play_queue_item (dec : Str → Option (Option Nat)) (a : App) (h : Inv a) :
    Inv (play_queue_item dec a) := by
  obtain ⟨hq, hqi, hbi, hbix, -⟩ := play_queue_item_preserves dec a
  unfold Inv at h ⊢
  rw [hq, hqi, hbi, hbix]
  exact h

theorem inv_load_directory (fs : Fs) (p : Str) (a : App) (h : Inv a) :
    Inv (load_directory fs p a) := by
  unfold load_directory
  cases hd : fs.isDirPath p
  · simp only [hd, Bool.not_false, eq_self_iff_true, if_true]
    exact h
  · simp only [hd, Bool.not_true, Bool.false_eq_true, if_false]
    cases hr : fs.readDir p with
    | none =>
      simp only [hr]
      exact ⟨fun _ => rfl, fun hcon => absurd rfl hcon, h.2.2⟩
    | some es =>
      simp only [hr]
      exact ⟨fun _ => rfl, fun hne => List.length_pos.mpr hne, h.2.2⟩

theorem inv_next_track (dec : Str → Option (Option Nat)) (a : App) (h : Inv a) :
    Inv (next_track dec a) := by
  unfold next_track
  cases he : a.queue.isEmpty
  · have hq : a.queue ≠ [] := List.isEmpty_eq_false.mp he
    simp only [he, Bool.false_eq_true, if_false]
    by_cases hlt : a.queue_index + 1 < a.queue.length
    · rw [if_pos hlt]
      exact inv_play_queue_item dec _ ⟨h.1, h.2.1, fun _ => hlt⟩
    · rw [if_neg hlt]
      exact inv_play_queue_item dec _ ⟨h.1, h.2.1, fun hq' => List.length_pos.mpr hq'⟩
  · simp only [he, eq_self_iff_true, if_true]
    exact h

theorem inv_prev_track (dec : Str → Option (Option Nat)) (a : App) (h : Inv a) :
    Inv (prev_track dec a) := by
  unfold prev_track
  cases he : a.queue.isEmpty
  · have hq : a.queue ≠ [] := List.isEmpty_eq_false.mp he
    have hi : a.queue_index < a.queue.length := h.2.2 hq
    simp only [he, Bool.false_eq_true, if_false]
    by_cases hpos : a.queue_index > 0
    · rw [if_pos hpos]
      exact inv_play_queue_item dec _
        ⟨h.1, h.2.1, fun _ => lt_of_le_of_lt (Nat.sub_le _ _) hi⟩
    · rw [if_neg hpos]
      exact inv_play_queue_item dec _
        ⟨h.1, h.2.1, fun hq' => Nat.sub_lt (List.length_pos.mpr hq') Nat.one_pos⟩
  · simp only [he, eq_self_iff_true, if_true]
    exact h

theorem inv_on_tick (dec : Str → Option (Option Nat)) (a : App) (h : Inv a) :
    Inv (on_tick dec a) := by
  unfold on_tick
  cases hp : a.is_playing
  · simp only [hp, Bool.false_eq_true, if_false]
    exact h
  · simp only [hp, eq_self_iff_true, if_true]
    have hb : Inv (tickProgress a) := ⟨h.1, h.2.1, h.2.2⟩
    split
    · split
      · exact inv_next_track dec _ hb
      · exact hb
    · exact hb

theorem inv_toggle_play (dec : Str → Option (Option Nat)) (a : App) (h : Inv a) :
    Inv (toggle_play dec a) := by
  unfold toggle_play
  split
  · exact inv_play_queue_item dec a h
  · split
    · exact ⟨h.1, h.2.1, h.2.2⟩
    · exact ⟨h.1, h.2.1, h.2.2⟩

theorem inv_enter_selected (fs : Fs) (dec : Str → Option (Option Nat)) (a : App) (h : Inv a) :
    Inv (enter_selected fs dec a) := by
  by_cases hne : a.browser_items.isEmpty = true
  · unfold enter_selected
    simp only [hne, eq_self_iff_true, if_true]
    exact h
  · have hne' : a.browser_items.isEmpty = false := by simpa using hne
    have hnil : a.browser_items ≠ [] := List.isEmpty_eq_false.mp hne'
    have hidx : a.browser_index < a.browser_items.length := h.2.1 hnil
    cases hft : (a.browser_items.getD a.browser_index defaultItem).file_type
    · unfold enter_selected
      simp only [hne', Bool.false_eq_true, if_false, hft]
      exact inv_load_directory fs _ a h
    · obtain ⟨idx, -, hlt, -, heq⟩ := enter_selected_audio_eq fs dec a hidx hft
      rw [heq]
      exact inv_play_queue_item dec _ ⟨h.1, h.2.1, fun _ => hlt⟩
    · unfold enter_selected
      simp only [hne', Bool.false_eq_true, if_false, hft]
      exact h

theorem inv_play_folder (fs : Fs) (dec : Str → Option (Option Nat)) (a : App) (h : Inv a) :
    Inv (play_folder fs dec a) := by
  by_cases hne : a.browser_items.isEmpty = true
  · unfold play_folder
    simp only [hne, eq_self_iff_true, if_true]
    exact h
  · have hne' : a.browser_items.isEmpty = false := by simpa using hne
    cases hbeq : ((a.browser_items.getD a.browser_index defaultItem).file_type
        == FileType.Directory)
    · unfold play_folder
      simp only [hne', Bool.false_eq_true, if_false, hbeq]
      exact h
    · cases hr : fs.readDir (a.browser_items.getD a.browser_index defaultItem).path with
      | none =>
        unfold play_folder
        simp only [hne', Bool.false_eq_true, if_false, hbeq, eq_self_iff_true, if_true, hr]
        exact h
      | some es =>
        cases hfe : (folderFiles es).isEmpty
        · unfold play_folder
          simp only [hne', Bool.false_eq_true, if_false, hbeq, eq_self_iff_true, if_true, hr,
            hfe, Bool.not_false]
          exact inv_play_queue_item dec _ ⟨h.1, h.2.1, fun hq' => List.length_pos.mpr hq'⟩
        · unfold play_folder
          simp only [hne', Bool.false_eq_true, if_false, hbeq, eq_self_iff_true, if_true, hr,
            hfe, Bool.not_true]
          exact h

theorem inv_go_up (fs : Fs) (a : App) (h : Inv a) : Inv (go_up fs a) := by
  unfold go_up
  cases hp : fs.parent a.current_directory with
  | none =>
    simp only [hp]
    exact h
  | some parent_path =>
    simp only [hp]
    exact inv_load_directory fs parent_path a h

theorem inv_next_item (a : App) (h : Inv a) : Inv (next_item a) := by
  by_cases hne : a.browser_items.isEmpty = true
  · have hc : (!a.browser_items.isEmpty) = false := by rw [hne]; rfl
    unfold next_item
    simp only [hc, Bool.false_eq_true, if_false]
    exact h
  · have hne' : a.browser_items.isEmpty = false := by simpa using hne
    have hnil : a.browser_items ≠ [] := List.isEmpty_eq_false.mp hne'
    have hc : (!a.browser_items.isEmpty) = true := by rw [hne']; rfl
    unfold next_item
    simp only [hc, eq_self_iff_true, if_true]
    by_cases hlt : a.browser_index + 1 < a.browser_items.length
    · rw [if_pos hlt]
      exact ⟨fun h0 => absurd h0 hnil, fun _ => hlt, h.2.2⟩
    · rw [if_neg hlt]
      exact ⟨fun _ => rfl, fun _ => List.length_pos.mpr hnil, h.2.2⟩

theorem inv_prev_item (a : App) (h : Inv a) : Inv (prev_item a) := by
  by_cases hne : a.browser_items.isEmpty = true
  · have hc : (!a.browser_items.isEmpty) = false := by rw [hne]; rfl
    unfold prev_item
    simp only [hc, Bool.false_eq_true, if_false]
    exact h
  · have hne' : a.browser_items.isEmpty = false := by simpa using hne
    have hnil : a.browser_items ≠ [] := List.isEmpty_eq_false.mp hne'
    have hidx : a.browser_index < a.browser_items.length := h.2.1 hnil
    have hc : (!a.browser_items.isEmpty) = true := by rw [hne']; rfl
    unfold prev_item
    simp only [hc, eq_self_iff_true, if_true]
    by_cases hpos : a.browser_index > 0
    · rw [if_pos hpos]
      exact ⟨fun h0 => absurd h0 hnil, fun _ => lt_of_le_of_lt (Nat.sub_le _ _) hidx, h.2.2⟩
    · rw [if_neg hpos]
      exact ⟨fun h0 => absurd h0 hnil,
        fun _ => Nat.sub_lt (List.length_pos.mpr hnil) Nat.one_pos, h.2.2⟩

/-- C8: every public operation of the engine preserves the index
invariants: the browser index stays in range whenever the listing is
non-empty (and at 0 when it is empty), and the queue index stays in range
whenever the queue is non-empty. -/
theorem c8_inv_preserved (fs : Fs) (dec : Str → Option (Option Nat)) (p : Str) (a : App)
    (h : Inv a) :
    Inv (load_directory fs p a) ∧ Inv (enter_selected fs dec a) ∧ Inv (play_folder fs dec a)
    ∧ Inv (go_up fs a) ∧ Inv (toggle_play dec a) ∧ Inv (next_track dec a)
    ∧ Inv (prev_track dec a) ∧ Inv (on_tick dec a) ∧ Inv (next_item a) ∧ Inv (prev_item a)
    ∧ Inv (volume_up a) ∧ Inv (volume_down a) :=
  ⟨inv_load_directory fs p a h, inv_enter_selected fs dec a h, inv_play_folder fs dec a h,
    inv_go_up fs a h, inv_toggle_play dec a h, inv_next_track dec a h, inv_prev_track dec a h,
    inv_on_tick dec a h, inv_next_item a h, inv_prev_item a h,
    ⟨h.1, h.2.1, h.2.2⟩, ⟨h.1, h.2.1, h.2.2⟩⟩

/-- Witness for C8 at a concrete state satisfying the invariants. -/
theorem c8_witness :
    Inv app2
    ∧ (Inv (load_directory fs6 "d".data app2) ∧ Inv (enter_selected fs6 dec0 app2)
      ∧ Inv (play_folder fs6 dec0 app2) ∧ Inv (go_up fs6 app2) ∧ Inv (toggle_play dec0 app2)
      ∧ Inv (next_track dec0 app2) ∧ Inv (prev_track dec0 app2) ∧ Inv (on_tick dec0 app2)
      ∧ Inv (next_item app2) ∧ Inv (prev_item app2) ∧ Inv (volume_up app2)
      ∧ Inv (volume_down app2)) :=
  ⟨⟨fun h0 => absurd h0 (by decide), fun _ => by decide, fun hq => absurd rfl hq⟩,
    c8_inv_preserved fs6 dec0 "d".data app2
      ⟨fun h0 => absurd h0 (by decide), fun _ => by decide, fun hq => absurd rfl hq⟩⟩

end Leek
